import Mathlib

/-!
Shallow embedding of the HDF5 object-header package declarations
(src/src/H5Opkg.h) and the plugin API (src/src/H5PL.c), together with
proofs of the specified properties.

Machine integers are modelled as `Nat`; the C macros of H5Opkg.h are
translated to Lean functions operating on a record that carries the
fields the macros read (`version`, `flags`).
-/

namespace HDF5

/-! ## Constants from src/src/H5Opkg.h -/

/-- Initial version of the object header format (`H5O_VERSION_1`). -/
def H5O_VERSION_1 : Nat := 1

/-- Revised version of the object header format (`H5O_VERSION_2`). -/
def H5O_VERSION_2 : Nat := 2

/-- Maximum creation order index value (`H5O_MAX_CRT_ORDER_IDX`). -/
def H5O_MAX_CRT_ORDER_IDX : Nat := 65535

/-- Size of checksum on disk (`H5O_SIZEOF_CHKSUM`). -/
def H5O_SIZEOF_CHKSUM : Nat := 4

/-- Modelled from the spec: `H5_SIZEOF_MAGIC` is declared in H5private.h,
which is not part of the sources; the spec fixes the magic at 4 bytes
("4-byte magic"). -/
def H5_SIZEOF_MAGIC : Nat := 4

/-- Object header status flag: use 1-byte value for chunk #0 size
(`H5O_HDR_CHUNK0_1`). -/
def H5O_HDR_CHUNK0_1 : Nat := 0x00

/-- Object header status flag: use 2-byte value for chunk #0 size
(`H5O_HDR_CHUNK0_2`). -/
def H5O_HDR_CHUNK0_2 : Nat := 0x01

/-- Object header status flag: use 4-byte value for chunk #0 size
(`H5O_HDR_CHUNK0_4`). -/
def H5O_HDR_CHUNK0_4 : Nat := 0x02

/-- Object header status flag: use 8-byte value for chunk #0 size
(`H5O_HDR_CHUNK0_8`). -/
def H5O_HDR_CHUNK0_8 : Nat := 0x03

/-- Modelled from the spec: the mask `H5O_HDR_CHUNK0_SIZE` is declared in
H5Opublic.h, which is not part of the sources.  The spec describes the
selector as "a 2-bit chunk-0-size-width selector", and the four selector
values `H5O_HDR_CHUNK0_1` .. `H5O_HDR_CHUNK0_8` in H5Opkg.h are 0x00..0x03,
so the mask covers exactly the low two bits. -/
def H5O_HDR_CHUNK0_SIZE : Nat := 0x03

/-- Modelled from the spec: flag bit for tracking attribute creation order
(`H5O_HDR_ATTR_CRT_ORDER_TRACKED`, declared in H5Opublic.h, not in the
sources). -/
def H5O_HDR_ATTR_CRT_ORDER_TRACKED : Nat := 0x04

/-- Modelled from the spec: flag bit for storing the attribute phase-change
thresholds (`H5O_HDR_ATTR_STORE_PHASE_CHANGE`, declared in H5Opublic.h,
not in the sources). -/
def H5O_HDR_ATTR_STORE_PHASE_CHANGE : Nat := 0x10

/-- Modelled from the spec: flag bit for storing the four timestamps
(`H5O_HDR_STORE_TIMES`, declared in H5Opublic.h, not in the sources). -/
def H5O_HDR_STORE_TIMES : Nat := 0x20

/-! ## Alignment macros (H5Opkg.h lines 70-80) -/

/-- `H5O_ALIGN_OLD(X) = (8 * (((X) + 7) / 8))`. -/
def H5O_ALIGN_OLD (X : Nat) : Nat := 8 * ((X + 7) / 8)

/-- `H5O_ALIGN_VERS(V, X)`: version 1 aligns with `H5O_ALIGN_OLD`,
any other version leaves `X` unchanged. -/
def H5O_ALIGN_VERS (V X : Nat) : Nat :=
  if V = H5O_VERSION_1 then H5O_ALIGN_OLD X else X

/-! ## Object header structures (H5Opkg.h lines 256-332)

Only the fields that the macros and the specified operations read are
carried; pointers to native values and raw images are abstracted. -/

/-- One message slot (`struct H5O_mesg_t`).  The `type` field of the C
struct is a pointer to a message class; for the chunk-size accounting the
only relevant classification is whether the class is `H5O_MSG_NULL`,
carried here as `type_null`. -/
structure H5O_mesg_t where
  type_null : Bool
  dirty : Bool
  locked : Bool
  flags : Nat
  crt_idx : Nat
  chunkno : Nat
  raw_size : Nat
deriving Repr, DecidableEq

/-- One chunk (`struct H5O_chunk_t`): file address, size, and trailing gap
(space at end of chunk too small for a null message). -/
structure H5O_chunk_t where
  addr : Nat
  size : Nat
  gap : Nat
deriving Repr, DecidableEq

/-- The object header (`struct H5O_t`), restricted to the stored fields
the specified properties mention. -/
structure H5O_t where
  version : Nat
  flags : Nat
  mesg : List H5O_mesg_t
  chunk : List H5O_chunk_t
deriving Repr, DecidableEq

/-! ## Size-of-header macros (H5Opkg.h lines 105-152) -/

/-- `H5O_SIZEOF_HDR(O)` (H5Opkg.h lines 105-129): size of the object
header prefix, version dependent. -/
def H5O_SIZEOF_HDR (O : H5O_t) : Nat :=
  if O.version = H5O_VERSION_1 then
    H5O_ALIGN_OLD (1 + 1 + 2 + 4 + 4)
  else
    H5_SIZEOF_MAGIC + 1 + 1 +
      (if O.flags &&& H5O_HDR_STORE_TIMES ≠ 0 then 4 + 4 + 4 + 4 else 0) +
      (if O.flags &&& H5O_HDR_ATTR_STORE_PHASE_CHANGE ≠ 0 then 2 + 2 else 0) +
      (1 <<< (O.flags &&& H5O_HDR_CHUNK0_SIZE)) +
      H5O_SIZEOF_CHKSUM

/-- `H5O_SIZEOF_MSGHDR_VERS(V,C)` (H5Opkg.h lines 134-148): size of the
per-message header, version dependent; `C` is the attribute
creation-order-tracked condition. -/
def H5O_SIZEOF_MSGHDR_VERS (V : Nat) (C : Bool) : Nat :=
  if V = H5O_VERSION_1 then
    H5O_ALIGN_OLD (2 + 2 + 1 + 3)
  else
    1 + 2 + 1 + (if C then 2 else 0)

/-- `H5O_SIZEOF_MSGHDR_OH(O)` (H5Opkg.h lines 149-150). -/
def H5O_SIZEOF_MSGHDR_OH (O : H5O_t) : Nat :=
  H5O_SIZEOF_MSGHDR_VERS O.version (O.flags &&& H5O_HDR_ATTR_CRT_ORDER_TRACKED ≠ 0)

/-! ## Lazy native decode (H5Opkg.h lines 182-225)

`H5O_LOAD_NATIVE(F, DXPL, IOF, OH, MSG, ERR)` decodes the native value of
a message on first access.  Native values are abstracted as `Nat`; the
codec callbacks of `struct H5O_msg_class_t` that the macro invokes are
carried as Lean functions.  A decode failure or a failing `set_crt_index`
callback yields `none` (the macro's `HGOTO_ERROR` paths). -/

/-- Input flag for decode callbacks: do not modify values
(`H5O_DECODEIO_NOCHANGE`). -/
def H5O_DECODEIO_NOCHANGE : Nat := 0x01

/-- Output flag from decode callbacks: message has been changed
(`H5O_DECODEIO_DIRTY`). -/
def H5O_DECODEIO_DIRTY : Nat := 0x02

/-- Modelled from the spec: `H5F_ACC_RDWR` (read-write open intent bit,
declared in H5Fpublic.h, not in the sources). -/
def H5F_ACC_RDWR : Nat := 0x0001

/-- Modelled from the spec: `H5O_MSG_FLAG_SHAREABLE` (message flag bit,
declared in H5Opublic.h, not in the sources). -/
def H5O_MSG_FLAG_SHAREABLE : Nat := 0x02

/-- Result of a codec decode callback: the produced native value (`none`
on failure) and the updated in/out `ioflags` word. -/
structure H5O_decode_out where
  native : Option Nat
  ioflags : Nat

/-- The codec callbacks of `struct H5O_msg_class_t` that
`H5O_LOAD_NATIVE` invokes: `decode` (message flags, incoming ioflags, raw
bytes), the shared-info update applied to shareable messages, and the
optional `set_crt_index` callback. -/
structure H5O_msg_class_model where
  decode : Nat → Nat → List Nat → H5O_decode_out
  update_shared : Nat → Nat → Nat
  set_crt_index : Option (Nat → Nat → Option Nat)

/-- A message slot as seen by `H5O_LOAD_NATIVE`: lazily decoded native
value, dirty flag, wire flags, creation index and raw bytes. -/
structure H5O_lazy_mesg where
  native : Option Nat
  dirty : Bool
  flags : Nat
  crt_idx : Nat
  raw : List Nat
deriving Repr, DecidableEq

/-- `H5O_LOAD_NATIVE` (H5Opkg.h lines 195-225).  `intent` is
`H5F_get_intent(F)`, `iof` is the incoming `IOF` argument. -/
def H5O_LOAD_NATIVE (intent iof : Nat) (cls : H5O_msg_class_model)
    (msg : H5O_lazy_mesg) : Option H5O_lazy_mesg :=
  match msg.native with
  | some _ => some msg
  | none =>
    let out := cls.decode msg.flags iof msg.raw
    match out.native with
    | none => none
    | some nat0 =>
      let dirty1 :=
        if out.ioflags &&& H5O_DECODEIO_DIRTY ≠ 0 ∧ intent &&& H5F_ACC_RDWR ≠ 0
        then true else msg.dirty
      let nat1 :=
        if msg.flags &&& H5O_MSG_FLAG_SHAREABLE ≠ 0
        then cls.update_shared nat0 msg.crt_idx else nat0
      match cls.set_crt_index with
      | none => some { msg with native := some nat1, dirty := dirty1 }
      | some f =>
        match f nat1 msg.crt_idx with
        | none => none
        | some nat2 => some { msg with native := some nat2, dirty := dirty1 }

end HDF5

namespace HDF5

/-! ## Claim theorems for the size macros -/

/-- Claim C7: for every non-negative size `X`, `H5O_ALIGN_OLD X` is the
least multiple of 8 that is greater than or equal to `X` (it is a multiple
of 8, at least `X`, less than `X + 8`, and idempotent), and the version-2
alignment is the identity. -/
theorem C7_align (X : Nat) :
    H5O_ALIGN_OLD X % 8 = 0 ∧
    X ≤ H5O_ALIGN_OLD X ∧
    H5O_ALIGN_OLD X < X + 8 ∧
    H5O_ALIGN_OLD (H5O_ALIGN_OLD X) = H5O_ALIGN_OLD X ∧
    H5O_ALIGN_VERS H5O_VERSION_2 X = X := by
  unfold H5O_ALIGN_VERS H5O_ALIGN_OLD H5O_VERSION_1 H5O_VERSION_2
  refine ⟨by omega, by omega, by omega, by omega, by simp⟩

/-- Claim C4: the per-message header size is 8 bytes for version 1
(the 8-byte-aligned sum 2 + 2 + 1 + 3), and for version 2 it is 4 bytes
without the creation index and 6 bytes with it. -/
theorem C4_msghdr_size (c : Bool) :
    H5O_SIZEOF_MSGHDR_VERS H5O_VERSION_1 c = H5O_ALIGN_OLD (2 + 2 + 1 + 3) ∧
    H5O_SIZEOF_MSGHDR_VERS H5O_VERSION_1 c = 8 ∧
    H5O_SIZEOF_MSGHDR_VERS H5O_VERSION_2 false = 4 ∧
    H5O_SIZEOF_MSGHDR_VERS H5O_VERSION_2 true = 6 := by
  unfold H5O_SIZEOF_MSGHDR_VERS H5O_ALIGN_OLD H5O_VERSION_1 H5O_VERSION_2
  simp

/-- The low two bits of the flags byte select the chunk-0 size field
width as a power of two. -/
theorem chunk0_selector_low_bits (flags : Nat) :
    flags &&& H5O_HDR_CHUNK0_SIZE = flags % 4 := by
  have h := Nat.and_pow_two_sub_one_eq_mod flags 2
  norm_num at h
  simpa [H5O_HDR_CHUNK0_SIZE] using h

/-- Claim C3: the object header prefix size is 16 bytes for version 1
(the 8-byte-aligned sum 1 + 1 + 2 + 4 + 4, no magic, no checksum), and for
version 2 it is magic + 1 + 1, plus 16 bytes iff the store-times flag is
set, plus 4 bytes iff the attribute-phase-change flag is set, plus a
chunk-0 size field of width 2 ^ (low 2 bits of flags) — which is exactly
1, 2, 4 or 8 — plus 4 bytes of checksum. -/
theorem C3_hdr_size (O : H5O_t) :
    (O.version = H5O_VERSION_1 →
      H5O_SIZEOF_HDR O = H5O_ALIGN_OLD (1 + 1 + 2 + 4 + 4) ∧
      H5O_SIZEOF_HDR O = 16) ∧
    (O.version = H5O_VERSION_2 →
      H5O_SIZEOF_HDR O =
        H5_SIZEOF_MAGIC + 1 + 1 +
          (if O.flags &&& H5O_HDR_STORE_TIMES ≠ 0 then 16 else 0) +
          (if O.flags &&& H5O_HDR_ATTR_STORE_PHASE_CHANGE ≠ 0 then 4 else 0) +
          2 ^ (O.flags % 4) + 4 ∧
      (2 ^ (O.flags % 4) = 1 ∨ 2 ^ (O.flags % 4) = 2 ∨
       2 ^ (O.flags % 4) = 4 ∨ 2 ^ (O.flags % 4) = 8)) := by
  constructor
  · intro hv
    unfold H5O_SIZEOF_HDR H5O_ALIGN_OLD
    rw [hv]
    simp [H5O_VERSION_1]
  · intro hv
    have hne : O.version ≠ H5O_VERSION_1 := by
      rw [hv]; unfold H5O_VERSION_1 H5O_VERSION_2; omega
    constructor
    · unfold H5O_SIZEOF_HDR
      rw [if_neg hne, chunk0_selector_low_bits, Nat.shiftLeft_eq]
      simp [H5O_SIZEOF_CHKSUM]
    · have h4 : O.flags % 4 < 4 := Nat.mod_lt _ (by norm_num)
      interval_cases h : (O.flags % 4) <;> simp

/-- Witness for C3 at a concrete version-1 header and a concrete version-2
header with all optional fields present and an 8-byte chunk-0 size field. -/
theorem C3_hdr_size_witness :
    ((⟨1, 0, [], []⟩ : H5O_t).version = H5O_VERSION_1 ∧
      H5O_SIZEOF_HDR ⟨1, 0, [], []⟩ = 16) ∧
    ((⟨2, 0x33, [], []⟩ : H5O_t).version = H5O_VERSION_2 ∧
      H5O_SIZEOF_HDR ⟨2, 0x33, [], []⟩ = 4 + 1 + 1 + 16 + 4 + 8 + 4) := by
  constructor
  · exact ⟨by decide, ((C3_hdr_size ⟨1, 0, [], []⟩).1 (by decide)).2⟩
  · refine ⟨by decide, ?_⟩
    have h := ((C3_hdr_size ⟨2, 0x33, [], []⟩).2 (by decide)).1
    simpa using h

/-! ## Claim theorems for lazy native decode -/

/-- Claim C2 counterexample: a message with no native value is decoded by
a codec that reports `H5O_DECODEIO_DIRTY`, but because the file intent
lacks `H5F_ACC_RDWR` the message's dirty flag is NOT set to true,
refuting the claim that the dirty flag is set whenever the decode
callback reports a change. -/
theorem C2_dirty_counterexample :
    (H5O_LOAD_NATIVE 0 0
        ⟨fun _ _ _ => ⟨some 7, H5O_DECODEIO_DIRTY⟩, fun n _ => n, none⟩
        ⟨none, false, 0, 0, []⟩).map (fun m => m.dirty) = some false := by
  decide

/-- Claim C2 (amended): the native value is materialized only on first
access — if it is already present the slot is returned unchanged without
calling the decode callback, and if it is absent a successful load
produces it via the codec's decode callback; and whenever the decode
callback reports `H5O_DECODEIO_DIRTY` AND the file was opened with
read-write intent, the message's dirty flag is set to true even though
the caller never modified the value. -/
theorem C2_lazy_decode_dirty (intent iof : Nat) (cls : H5O_msg_class_model)
    (msg msg' : H5O_lazy_mesg)
    (hrun : H5O_LOAD_NATIVE intent iof cls msg = some msg') :
    (∀ v, msg.native = some v → msg' = msg) ∧
    (msg.native = none → msg'.native.isSome = true) ∧
    (msg.native = none →
      (cls.decode msg.flags iof msg.raw).ioflags &&& H5O_DECODEIO_DIRTY ≠ 0 →
      intent &&& H5F_ACC_RDWR ≠ 0 →
      msg'.dirty = true) := by
  refine ⟨?_, ?_, ?_⟩
  · intro v hv
    unfold H5O_LOAD_NATIVE at hrun
    rw [hv] at hrun
    exact (Option.some.inj hrun).symm
  · intro hn
    rcases hd : (cls.decode msg.flags iof msg.raw).native with _ | nat0
    · exact Option.noConfusion (by simpa only [H5O_LOAD_NATIVE, hn, hd] using hrun : (none : Option H5O_lazy_mesg) = some msg')
    · rcases hs : cls.set_crt_index with _ | f
      · simp only [H5O_LOAD_NATIVE, hn, hd, hs] at hrun
        obtain rfl := (Option.some.inj hrun).symm
        simp
      · rcases hf : f (if msg.flags &&& H5O_MSG_FLAG_SHAREABLE ≠ 0
            then cls.update_shared nat0 msg.crt_idx else nat0) msg.crt_idx with _ | nat2
        · simp only [H5O_LOAD_NATIVE, hn, hd, hs, hf] at hrun
          exact Option.noConfusion hrun
        · simp only [H5O_LOAD_NATIVE, hn, hd, hs, hf] at hrun
          obtain rfl := (Option.some.inj hrun).symm
          simp
  · intro hn hdirty hintent
    rcases hd : (cls.decode msg.flags iof msg.raw).native with _ | nat0
    · exact Option.noConfusion (by simpa only [H5O_LOAD_NATIVE, hn, hd] using hrun : (none : Option H5O_lazy_mesg) = some msg')
    · rcases hs : cls.set_crt_index with _ | f
      · simp only [H5O_LOAD_NATIVE, hn, hd, hs] at hrun
        obtain rfl := (Option.some.inj hrun).symm
        simp [hdirty, hintent]
      · rcases hf : f (if msg.flags &&& H5O_MSG_FLAG_SHAREABLE ≠ 0
            then cls.update_shared nat0 msg.crt_idx else nat0) msg.crt_idx with _ | nat2
        · simp only [H5O_LOAD_NATIVE, hn, hd, hs, hf] at hrun
          exact Option.noConfusion hrun
        · simp only [H5O_LOAD_NATIVE, hn, hd, hs, hf] at hrun
          obtain rfl := (Option.some.inj hrun).symm
          simp [hdirty, hintent]

/-- Witness for C2 (amended): a concrete load with write intent and a
dirty-reporting codec yields a dirty message. -/
theorem C2_lazy_decode_dirty_witness :
    (H5O_LOAD_NATIVE 1 0
        ⟨fun _ _ _ => ⟨some 7, H5O_DECODEIO_DIRTY⟩, fun n _ => n, none⟩
        ⟨none, false, 0, 0, []⟩ =
      some ⟨some 7, true, 0, 0, []⟩) ∧
    (⟨(none : Option Nat), false, 0, 0, ([] : List Nat)⟩ :
        H5O_lazy_mesg).native = none ∧
    ((⟨fun _ _ _ => ⟨some 7, H5O_DECODEIO_DIRTY⟩, fun n _ => n, none⟩ :
        H5O_msg_class_model).decode 0 0 []).ioflags &&&
      H5O_DECODEIO_DIRTY ≠ 0 ∧
    (1 : Nat) &&& H5F_ACC_RDWR ≠ 0 ∧
    (⟨some 7, true, 0, 0, []⟩ : H5O_lazy_mesg).dirty = true := by
  have hrun : H5O_LOAD_NATIVE 1 0
      ⟨fun _ _ _ => ⟨some 7, H5O_DECODEIO_DIRTY⟩, fun n _ => n, none⟩
      ⟨none, false, 0, 0, []⟩ = some ⟨some 7, true, 0, 0, []⟩ := by decide
  refine ⟨hrun, rfl, by decide, by decide, ?_⟩
  exact (C2_lazy_decode_dirty 1 0 _ _ _ hrun).2.2 rfl (by decide) (by decide)

/-- Claim C8: when a message is lazily decoded through `H5O_LOAD_NATIVE`
in a file opened without read-write intent, the dirty flag remains false
even when the codec's decode callback reports `H5O_DECODEIO_DIRTY`. -/
theorem C8_no_dirty_without_rdwr (intent iof : Nat)
    (cls : H5O_msg_class_model) (msg msg' : H5O_lazy_mesg)
    (hrun : H5O_LOAD_NATIVE intent iof cls msg = some msg')
    (hintent : intent &&& H5F_ACC_RDWR = 0)
    (hclean : msg.dirty = false) :
    msg'.dirty = false := by
  rcases hn : msg.native with _ | v
  · rcases hd : (cls.decode msg.flags iof msg.raw).native with _ | nat0
    · exact Option.noConfusion (by simpa only [H5O_LOAD_NATIVE, hn, hd] using hrun : (none : Option H5O_lazy_mesg) = some msg')
    · have hcond : ¬((cls.decode msg.flags iof msg.raw).ioflags &&&
          H5O_DECODEIO_DIRTY ≠ 0 ∧ intent &&& H5F_ACC_RDWR ≠ 0) := by
        intro hc; exact hc.2 hintent
      rcases hs : cls.set_crt_index with _ | f
      · simp only [H5O_LOAD_NATIVE, hn, hd, hs, if_neg hcond] at hrun
        obtain rfl := (Option.some.inj hrun).symm
        exact hclean
      · rcases hf : f (if msg.flags &&& H5O_MSG_FLAG_SHAREABLE ≠ 0
            then cls.update_shared nat0 msg.crt_idx else nat0) msg.crt_idx with _ | nat2
        · simp only [H5O_LOAD_NATIVE, hn, hd, hs, hf] at hrun
          exact Option.noConfusion hrun
        · simp only [H5O_LOAD_NATIVE, hn, hd, hs, hf, if_neg hcond] at hrun
          obtain rfl := (Option.some.inj hrun).symm
          exact hclean
  · unfold H5O_LOAD_NATIVE at hrun
    rw [hn] at hrun
    obtain rfl := Option.some.inj hrun
    exact hclean

/-- Witness for C8: a concrete read-only load with a dirty-reporting
codec leaves the message clean. -/
theorem C8_no_dirty_without_rdwr_witness :
    (H5O_LOAD_NATIVE 0 0
        ⟨fun _ _ _ => ⟨some 7, H5O_DECODEIO_DIRTY⟩, fun n _ => n, none⟩
        ⟨none, false, 0, 0, []⟩ =
      some ⟨some 7, false, 0, 0, []⟩) ∧
    (0 : Nat) &&& H5F_ACC_RDWR = 0 ∧
    (⟨some 7, false, 0, 0, []⟩ : H5O_lazy_mesg).dirty = false := by
  have hrun : H5O_LOAD_NATIVE 0 0
      ⟨fun _ _ _ => ⟨some 7, H5O_DECODEIO_DIRTY⟩, fun n _ => n, none⟩
      ⟨none, false, 0, 0, []⟩ = some ⟨some 7, false, 0, 0, []⟩ := by decide
  refine ⟨hrun, by decide, ?_⟩
  exact C8_no_dirty_without_rdwr 0 0 _ _ _ hrun (by decide) rfl

end HDF5

namespace HDF5

/-! ## Plugin API (src/src/H5PL.c)

The process-wide loading-state variable `H5PL_plugin_g` and the plugin
path table are passed explicitly; each API function returns the updated
state together with its `herr_t`/`ssize_t` return value (negative on
failure, as in the C sources).  The environment is modelled as the value
of the `HDF5_PLUGIN_PRELOAD` variable (`none` when unset). -/

/-- Modelled from the spec: `H5PL_NO_PLUGIN`, the special pathname string
that disables all dynamic plugins (declared in H5PLpkg.h, not in the
sources; H5PL.c's comments name the special symbol "::"). -/
def H5PL_NO_PLUGIN : String := "::"

/-- `H5PLset_loading_state` (H5PL.c lines 81-108): writes the argument to
the global `H5PL_plugin_g`, then forces the state to 0 if the
`HDF5_PLUGIN_PRELOAD` environment variable equals `H5PL_NO_PLUGIN`.
Takes the prior value of the
global (which line 94 of H5PL.c clobbers) and returns the new global
state together with the `herr_t` result. -/
def H5PLset_loading_state (env_preload : Option String)
    (_plugin_g plugin_type : Nat) : Nat × Int :=
  let g := plugin_type
  let g :=
    match env_preload with
    | some preload_path =>
        if preload_path = H5PL_NO_PLUGIN then 0 else g
    | none => g
  (g, 0)

/-- Modelled from the spec: `H5PL__get_num_paths` (H5PLpath.c, not in the
sources) returns the number of stored plugin search paths. -/
def H5PL__get_num_paths (table : List String) : Nat := table.length

/-- Modelled from the spec: `H5PL__replace_path` (H5PLpath.c, not in the
sources) replaces the path stored at the given index. -/
def H5PL__replace_path (table : List String) (path : String)
    (idx : Nat) : List String := table.set idx path

/-- Modelled from the spec: `H5PL__remove_path` (H5PLpath.c, not in the
sources) removes the path at the given index and compacts the table. -/
def H5PL__remove_path (table : List String) (idx : Nat) : List String :=
  table.eraseIdx idx

/-- Modelled from the spec: `H5PL__get_path` (H5PLpath.c, not in the
sources) returns the path stored at the given index, if any. -/
def H5PL__get_path (table : List String) (idx : Nat) : Option String :=
  table.get? idx

/-- `H5PLreplace` (H5PL.c lines 218-246): argument checks, index bounds
checks against the path table, then replacement.  `none` for
`search_path` models a NULL pointer.  Returns the updated table and the
`herr_t` result. -/
def H5PLreplace (table : List String) (search_path : Option String)
    (idx : Nat) : List String × Int :=
  match search_path with
  | none => (table, -1)
  | some s =>
    if s.length = 0 then (table, -1)
    else if H5PL__get_num_paths table = 0 then (table, -1)
    else if idx ≥ H5PL__get_num_paths table then (table, -1)
    else (H5PL__replace_path table s idx, 0)

/-- `H5PLremove` (H5PL.c lines 302-324): index bounds checks against the
path table, then removal.  Returns the updated table and the `herr_t`
result. -/
def H5PLremove (table : List String) (idx : Nat) : List String × Int :=
  if H5PL__get_num_paths table = 0 then (table, -1)
  else if idx ≥ H5PL__get_num_paths table then (table, -1)
  else (H5PL__remove_path table idx, 0)

/-- `H5PLget` (H5PL.c lines 350-389): index bounds checks, then query of
the stored path; the table itself is never modified.  Returns the table
(unchanged) and the `ssize_t` result (path length, or negative on
failure). -/
def H5PLget (table : List String) (idx : Nat) : List String × Int :=
  if H5PL__get_num_paths table = 0 then (table, -1)
  else if idx ≥ H5PL__get_num_paths table then (table, -1)
  else
    match H5PL__get_path table idx with
    | none => (table, -1)
    | some path => (table, Int.ofNat path.length)

/-! ## Claim theorems for the plugin API -/

/-- Claim C5 counterexample: with the `HDF5_PLUGIN_PRELOAD` environment
variable set to "::" at the time of the call, a successful call to
`H5PLset_loading_state` with argument 1 leaves the global loading state
at 0, not at the argument value — the claim as stated (for every call,
the state afterwards equals the argument) is false. -/
theorem C5_overwrite_counterexample :
    (H5PLset_loading_state (some "::") 2 1).2 = 0 ∧
    (H5PLset_loading_state (some "::") 2 1).1 ≠ 1 := by
  decide

/-- Claim C5 (amended): provided the `HDF5_PLUGIN_PRELOAD` environment
variable is not set to "::" at the time of the call, a successful call to
`H5PLset_loading_state` leaves the global loading state equal to the
argument value for every prior state (the setter overwrites the stored
value); in particular the result is independent of the prior state, so it
is not the bitwise OR of the argument with the prior state whenever that
OR differs from the argument. -/
theorem C5_overwrite (env_preload : Option String) (plugin_g plugin_type : Nat)
    (henv : env_preload ≠ some H5PL_NO_PLUGIN) :
    (H5PLset_loading_state env_preload plugin_g plugin_type).1 = plugin_type ∧
    (H5PLset_loading_state env_preload plugin_g plugin_type).2 = 0 ∧
    ∀ prior : Nat, prior ||| plugin_type ≠ plugin_type →
      (H5PLset_loading_state env_preload plugin_g plugin_type).1 ≠
        prior ||| plugin_type := by
  have hstate : (H5PLset_loading_state env_preload plugin_g plugin_type).1 =
      plugin_type := by
    unfold H5PLset_loading_state
    match env_preload with
    | none => rfl
    | some p =>
      have hp : p ≠ H5PL_NO_PLUGIN := by
        intro hc; exact henv (by rw [hc])
      simp [hp]
  refine ⟨hstate, ?_, ?_⟩
  · unfold H5PLset_loading_state
    match env_preload with
    | none => rfl
    | some p => simp
  · intro prior hne
    rw [hstate]
    exact fun hc => hne hc.symm

/-- Witness for C5 (amended): with the environment variable unset, prior
state 2 and argument 1, the state afterwards is the argument 1 and not
the bitwise OR 3. -/
theorem C5_overwrite_witness :
    (H5PLset_loading_state none 2 1).1 = 1 ∧
    (H5PLset_loading_state none 2 1).2 = 0 ∧
    (2 : Nat) ||| 1 ≠ 1 ∧
    (H5PLset_loading_state none 2 1).1 ≠ (2 : Nat) ||| 1 := by
  have h := C5_overwrite none 2 1 (by intro hc; cases hc)
  exact ⟨h.1, h.2.1, by decide, h.2.2 2 (by decide)⟩

/-- Claim C9: if the `HDF5_PLUGIN_PRELOAD` environment variable is set to
"::" at the time of the call, `H5PLset_loading_state` leaves the global
plugin loading state equal to 0 regardless of the argument, and still
returns success. -/
theorem C9_preload_disables_all (plugin_g plugin_type : Nat) :
    (H5PLset_loading_state (some H5PL_NO_PLUGIN) plugin_g plugin_type).1 = 0 ∧
    (H5PLset_loading_state (some H5PL_NO_PLUGIN) plugin_g plugin_type).2 = 0 := by
  unfold H5PLset_loading_state H5PL_NO_PLUGIN
  simp

/-- Claim C10: for `H5PLreplace`, `H5PLremove` and `H5PLget`, if the path
table is empty or the index is at least the number of stored paths, the
call returns a negative value and leaves the path table unchanged. -/
theorem C10_index_checks (table : List String) (search_path : Option String)
    (idx : Nat) (h : table = [] ∨ table.length ≤ idx) :
    ((H5PLreplace table search_path idx).2 < 0 ∧
      (H5PLreplace table search_path idx).1 = table) ∧
    ((H5PLremove table idx).2 < 0 ∧
      (H5PLremove table idx).1 = table) ∧
    ((H5PLget table idx).2 < 0 ∧
      (H5PLget table idx).1 = table) := by
  have hbound : H5PL__get_num_paths table = 0 ∨
      idx ≥ H5PL__get_num_paths table := by
    rcases h with h | h
    · left; rw [h]; rfl
    · right; exact h
  refine ⟨?_, ?_, ?_⟩
  · unfold H5PLreplace
    match search_path with
    | none => exact ⟨by norm_num, rfl⟩
    | some s =>
      by_cases hz : s.length = 0
      · simp [hz]
      · rcases hbound with hb | hb
        · simp [hz, hb]
        · rcases Nat.eq_zero_or_pos (H5PL__get_num_paths table) with h0 | h0
          · simp [hz, h0]
          · simp [hz, Nat.pos_iff_ne_zero.mp h0, hb]
  · unfold H5PLremove
    rcases hbound with hb | hb
    · simp [hb]
    · rcases Nat.eq_zero_or_pos (H5PL__get_num_paths table) with h0 | h0
      · simp [h0]
      · simp [Nat.pos_iff_ne_zero.mp h0, hb]
  · unfold H5PLget
    rcases hbound with hb | hb
    · simp [hb]
    · rcases Nat.eq_zero_or_pos (H5PL__get_num_paths table) with h0 | h0
      · simp [h0]
      · simp [Nat.pos_iff_ne_zero.mp h0, hb]

/-- Witness for C10: on a one-entry table with the out-of-bounds index 1,
all three calls fail and leave the table unchanged. -/
theorem C10_index_checks_witness :
    ((["a"] : List String) = [] ∨ (["a"] : List String).length ≤ 1) ∧
    (H5PLreplace ["a"] (some "b") 1).2 < 0 ∧
    (H5PLreplace ["a"] (some "b") 1).1 = ["a"] ∧
    (H5PLremove ["a"] 1).2 < 0 ∧
    (H5PLremove ["a"] 1).1 = ["a"] ∧
    (H5PLget ["a"] 1).2 < 0 ∧
    (H5PLget ["a"] 1).1 = ["a"] := by
  have h := C10_index_checks ["a"] (some "b") 1 (Or.inr (by decide))
  exact ⟨Or.inr (by decide), h.1.1, h.1.2, h.2.1.1, h.2.1.2, h.2.2.1, h.2.2.2⟩

end HDF5

namespace HDF5

/-! ## Chunk/message accounting and the modelled mutation operations

The allocation/compaction engine itself (H5Oalloc.c) is not among the
sources; following the spec (sections 4.2 and 8), its message and chunk
operations are modelled here and the chunk-size accounting invariant is
proved preserved.  The per-message header overhead and the structures are
the ones embedded above from H5Opkg.h. -/

/-- Replace the element at index `i` by `f` applied to it; identity when
the index is out of range. -/
def modifyAt (l : List α) (i : Nat) (f : α → α) : List α :=
  match l, i with
  | [], _ => []
  | x :: xs, 0 => f x :: xs
  | x :: xs, Nat.succ n => x :: modifyAt xs n f

/-- Contribution of one message slot to the space accounting of chunk
`i`: message-header overhead plus raw size when the slot lives in chunk
`i`, zero otherwise. -/
def mesgContr (mh : Nat) (m : H5O_mesg_t) (i : Nat) : Nat :=
  if m.chunkno = i then mh + m.raw_size else 0

/-- Total space accounted to chunk `i` by a message list. -/
def mesgListUsed (mh : Nat) (ms : List H5O_mesg_t) (i : Nat) : Nat :=
  match ms with
  | [] => 0
  | m :: rest => mesgContr mh m i + mesgListUsed mh rest i

/-- Space accounted to chunk `i` of an object header: the sum over the
chunk's messages of raw size plus per-message header overhead. -/
def chunkUsed (oh : H5O_t) (i : Nat) : Nat :=
  mesgListUsed (H5O_SIZEOF_MSGHDR_OH oh) oh.mesg i

/-- The accounting invariant: for every chunk, the space accounted by its
messages plus the chunk's gap equals the chunk's size. -/
def chunksConsistent (oh : H5O_t) : Prop :=
  ∀ i c, oh.chunk.get? i = some c → chunkUsed oh i + c.gap = c.size

/-- Every message slot names an existing chunk. -/
def chunknosValid (oh : H5O_t) : Prop :=
  ∀ m ∈ oh.mesg, m.chunkno < oh.chunk.length

/-- Every message slot's creation index is within the documented bound. -/
def crtIdxBounded (oh : H5O_t) : Prop :=
  ∀ m ∈ oh.mesg, m.crt_idx ≤ H5O_MAX_CRT_ORDER_IDX

/-- Well-formedness of a live object header: the accounting invariant
plus the structural facts it relies on. -/
def H5O_wf (oh : H5O_t) : Prop :=
  chunksConsistent oh ∧ chunknosValid oh ∧ crtIdxBounded oh

/-- Modelled from the spec: `H5O_release_mesg` (H5Oalloc.c, not among
the sources) converts a non-locked message slot to the null class; its
raw bytes and raw size stay in place (releasing a locked message is the
spec's `InvalidOperation`). -/
def H5O_release_mesg (oh : H5O_t) (idx : Nat) : Option H5O_t :=
  match oh.mesg.get? idx with
  | none => none
  | some m =>
    if m.locked then none
    else
      some { oh with
        mesg := modifyAt oh.mesg idx (fun mm =>
          { mm with type_null := true, dirty := true }) }

/-- Modelled from the spec: the merge of two address-adjacent null
messages of the same chunk (H5Oalloc.c, not among the sources); the
earlier slot absorbs the later slot's message header and raw bytes, and
the later slot is removed from the table. -/
def H5O_merge_null (oh : H5O_t) (i j : Nat) : Option H5O_t :=
  if i < j then
    match oh.mesg.get? i, oh.mesg.get? j with
    | some mi, some mj =>
      if mi.type_null ∧ mj.type_null ∧ mi.chunkno = mj.chunkno then
        some { oh with mesg :=
          (modifyAt oh.mesg i (fun mm =>
            { mm with raw_size :=
                mm.raw_size + H5O_SIZEOF_MSGHDR_OH oh + mj.raw_size })).eraseIdx j }
      else none
    | _, _ => none
  else none

/-- Modelled from the spec: `H5O_alloc` reusing a null message
(H5Oalloc.c, not among the sources).  An exact fit turns the slot into
the new message; a strictly larger null message is split, with the
leftover staying null.  The new message receives creation index `c`,
which the spec's overflow policy bounds by `H5O_MAX_CRT_ORDER_IDX`. -/
def H5O_alloc_null (oh : H5O_t) (idx new_size c : Nat) : Option H5O_t :=
  match oh.mesg.get? idx with
  | none => none
  | some m =>
    if ¬ m.type_null then none
    else if ¬ c ≤ H5O_MAX_CRT_ORDER_IDX then none
    else if m.raw_size = new_size then
      some { oh with
        mesg := modifyAt oh.mesg idx (fun mm =>
          { mm with type_null := false, dirty := true, crt_idx := c }) }
    else if new_size + H5O_SIZEOF_MSGHDR_OH oh ≤ m.raw_size then
      some { oh with
        mesg :=
          (modifyAt oh.mesg idx (fun mm =>
            { mm with type_null := false, dirty := true, crt_idx := c,
                      raw_size := new_size })) ++
          [{ type_null := true, dirty := true, locked := false, flags := 0,
             crt_idx := 0, chunkno := m.chunkno,
             raw_size := m.raw_size - new_size - H5O_SIZEOF_MSGHDR_OH oh }] }
    else none

/-- Modelled from the spec: extending a chunk in place to grow the
message at its end (H5Oalloc.c, not among the sources); the chunk's size
and the message's raw size grow by the same amount. -/
def H5O_chunk_extend (oh : H5O_t) (idx delta : Nat) : Option H5O_t :=
  match oh.mesg.get? idx with
  | none => none
  | some m =>
    some { oh with
      mesg := modifyAt oh.mesg idx (fun mm =>
        { mm with raw_size := mm.raw_size + delta, dirty := true }),
      chunk := modifyAt oh.chunk m.chunkno (fun ch =>
        { ch with size := ch.size + delta }) }

/-- Modelled from the spec: allocating a new continuation chunk sized
for one new message plus a trailing gap smaller than the message-header
size (H5Oalloc.c, not among the sources).  The new message receives
creation index `c`, bounded by the spec's overflow policy. -/
def H5O_chunk_add (oh : H5O_t) (chunk_addr new_size g c : Nat) : Option H5O_t :=
  if g < H5O_SIZEOF_MSGHDR_OH oh ∧ c ≤ H5O_MAX_CRT_ORDER_IDX then
    some { oh with
      mesg := oh.mesg ++
        [{ type_null := false, dirty := true, locked := false,
           flags := 0, crt_idx := c, chunkno := oh.chunk.length,
           raw_size := new_size }],
      chunk := oh.chunk ++
        [{ addr := chunk_addr,
           size := H5O_SIZEOF_MSGHDR_OH oh + new_size + g, gap := g }] }
  else none

/-- Modelled from the spec: one condense step of `condense(header)`
(H5Oalloc.c, not among the sources) — a non-locked null message is
removed from the table, subsequent messages shifting down, and the
owning chunk's declared size shrinks by the removed message's header
overhead plus raw size. -/
def H5O_condense_null (oh : H5O_t) (idx : Nat) : Option H5O_t :=
  match oh.mesg.get? idx with
  | none => none
  | some m =>
    if m.type_null = true ∧ m.locked = false then
      some { oh with
        mesg := oh.mesg.eraseIdx idx,
        chunk := modifyAt oh.chunk m.chunkno (fun ch =>
          { ch with size := ch.size - (H5O_SIZEOF_MSGHDR_OH oh + m.raw_size) }) }
    else none

/-- Message-table update accompanying the removal of chunk `ci`: the
(null) messages of chunk `ci` leave the table, and messages of later
chunks are renumbered down by one. -/
def removeChunkMesgs (ci : Nat) : List H5O_mesg_t → List H5O_mesg_t
  | [] => []
  | m :: ms =>
    if m.chunkno = ci then removeChunkMesgs ci ms
    else if ci < m.chunkno then
      { m with chunkno := m.chunkno - 1 } :: removeChunkMesgs ci ms
    else m :: removeChunkMesgs ci ms

/-- Modelled from the spec: the chunk-removal phase of `release` and
`condense` (H5Oalloc.c, not among the sources) — a non-chunk-0 chunk all
of whose messages are null is deleted: its slots leave the message table,
the chunk leaves the chunk list, and messages of later chunks are
renumbered down by one.  (The parent's continuation message turning null
is the separate release-to-null step.) -/
def H5O_chunk_remove (oh : H5O_t) (ci : Nat) : Option H5O_t :=
  if ci ≠ 0 ∧ ci < oh.chunk.length ∧
      (∀ m ∈ oh.mesg, m.chunkno = ci → m.type_null = true) then
    some { oh with
      mesg := removeChunkMesgs ci oh.mesg,
      chunk := oh.chunk.eraseIdx ci }
  else none

/-- Modelled from the spec: one message or chunk operation of the
allocation/compaction engine, as a step relation on object headers:
release-to-null, adjacent-null merge, null reuse (exact fit or split),
in-place chunk extension, continuation-chunk allocation, condense-time
null removal with chunk shrink, and empty-chunk removal. -/
inductive H5O_step : H5O_t → H5O_t → Prop
  | release (oh : H5O_t) (idx : Nat) (oh' : H5O_t) :
      H5O_release_mesg oh idx = some oh' → H5O_step oh oh'
  | merge (oh : H5O_t) (i j : Nat) (oh' : H5O_t) :
      H5O_merge_null oh i j = some oh' → H5O_step oh oh'
  | alloc (oh : H5O_t) (idx new_size c : Nat) (oh' : H5O_t) :
      H5O_alloc_null oh idx new_size c = some oh' → H5O_step oh oh'
  | extend (oh : H5O_t) (idx delta : Nat) (oh' : H5O_t) :
      H5O_chunk_extend oh idx delta = some oh' → H5O_step oh oh'
  | chunk_add (oh : H5O_t) (chunk_addr new_size g c : Nat) (oh' : H5O_t) :
      H5O_chunk_add oh chunk_addr new_size g c = some oh' → H5O_step oh oh'
  | condense (oh : H5O_t) (idx : Nat) (oh' : H5O_t) :
      H5O_condense_null oh idx = some oh' → H5O_step oh oh'
  | chunk_remove (oh : H5O_t) (ci : Nat) (oh' : H5O_t) :
      H5O_chunk_remove oh ci = some oh' → H5O_step oh oh'

end HDF5

namespace HDF5

/-! ## Helper lemmas for the accounting invariant -/

lemma modifyAt_length (l : List α) (i : Nat) (f : α → α) :
    (modifyAt l i f).length = l.length := by
  induction l generalizing i with
  | nil => rfl
  | cons x xs ih =>
    cases i with
    | zero => rfl
    | succ n => simp [modifyAt, ih]

lemma modifyAt_get? (l : List α) (i : Nat) (f : α → α) (k : Nat) :
    (modifyAt l i f).get? k =
      if k = i then (l.get? i).map f else l.get? k := by
  induction l generalizing i k with
  | nil => simp [modifyAt]
  | cons x xs ih =>
    cases i with
    | zero =>
      cases k with
      | zero => simp [modifyAt]
      | succ n => simp [modifyAt]
    | succ n =>
      cases k with
      | zero => simp [modifyAt]
      | succ kk => simpa [modifyAt] using ih n kk

lemma mem_modifyAt {l : List α} {i : Nat} {f : α → α} {y : α}
    (hy : y ∈ modifyAt l i f) : y ∈ l ∨ ∃ x ∈ l, y = f x := by
  induction l generalizing i with
  | nil => cases hy
  | cons x xs ih =>
    cases i with
    | zero =>
      rcases List.mem_cons.mp hy with h | h
      · exact Or.inr ⟨x, List.mem_cons_self x xs, h⟩
      · exact Or.inl (List.mem_cons_of_mem x h)
    | succ n =>
      rcases List.mem_cons.mp hy with h | h
      · exact Or.inl (h ▸ List.mem_cons_self x xs)
      · rcases ih h with h' | ⟨z, hz, hzz⟩
        · exact Or.inl (List.mem_cons_of_mem x h')
        · exact Or.inr ⟨z, List.mem_cons_of_mem x hz, hzz⟩

lemma mesgListUsed_append (mh : Nat) (ms ns : List H5O_mesg_t) (i : Nat) :
    mesgListUsed mh (ms ++ ns) i =
      mesgListUsed mh ms i + mesgListUsed mh ns i := by
  induction ms with
  | nil => simp [mesgListUsed]
  | cons m rest ih =>
    simp only [List.cons_append, mesgListUsed, List.append_eq, ih]
    omega

lemma mesgListUsed_modifyAt (mh : Nat) (ms : List H5O_mesg_t) (idx : Nat)
    (f : H5O_mesg_t → H5O_mesg_t) (m : H5O_mesg_t)
    (h : ms.get? idx = some m) (i : Nat) :
    mesgListUsed mh (modifyAt ms idx f) i + mesgContr mh m i =
      mesgListUsed mh ms i + mesgContr mh (f m) i := by
  induction ms generalizing idx with
  | nil => simp at h
  | cons x xs ih =>
    cases idx with
    | zero =>
      obtain rfl : x = m := by simpa using h
      simp only [modifyAt, mesgListUsed]
      omega
    | succ n =>
      have h' : xs.get? n = some m := by simpa using h
      have := ih n h'
      simp only [modifyAt, mesgListUsed]
      omega

lemma mesgListUsed_eraseIdx (mh : Nat) (ms : List H5O_mesg_t) (j : Nat)
    (m : H5O_mesg_t) (h : ms.get? j = some m) (i : Nat) :
    mesgListUsed mh (ms.eraseIdx j) i + mesgContr mh m i =
      mesgListUsed mh ms i := by
  induction ms generalizing j with
  | nil => simp at h
  | cons x xs ih =>
    cases j with
    | zero =>
      obtain rfl : x = m := by simpa using h
      simp only [List.eraseIdx, mesgListUsed]
      omega
    | succ n =>
      have h' : xs.get? n = some m := by simpa using h
      have := ih n h'
      simp only [List.eraseIdx, mesgListUsed]
      omega

lemma mesgListUsed_eq_zero (mh : Nat) (ms : List H5O_mesg_t) (i : Nat)
    (h : ∀ m ∈ ms, m.chunkno ≠ i) : mesgListUsed mh ms i = 0 := by
  induction ms with
  | nil => rfl
  | cons m rest ih =>
    have hm : m.chunkno ≠ i := h m (List.mem_cons_self m rest)
    simp only [mesgListUsed, mesgContr, if_neg hm]
    have := ih (fun x hx => h x (List.mem_cons_of_mem m hx))
    omega

end HDF5

namespace HDF5

lemma mesgListUsed_modifyAt_contr_eq (mh : Nat) (ms : List H5O_mesg_t)
    (idx : Nat) (f : H5O_mesg_t → H5O_mesg_t) (i : Nat)
    (hf : ∀ m, mesgContr mh (f m) i = mesgContr mh m i) :
    mesgListUsed mh (modifyAt ms idx f) i = mesgListUsed mh ms i := by
  induction ms generalizing idx with
  | nil => rfl
  | cons x xs ih =>
    cases idx with
    | zero => simp only [modifyAt, mesgListUsed, hf]
    | succ n => simp only [modifyAt, mesgListUsed, ih]

/-- Releasing a message preserves well-formedness: the slot merely
changes class to null, its raw span staying in place. -/
lemma release_mesg_wf (oh : H5O_t) (idx : Nat) (oh' : H5O_t)
    (hop : H5O_release_mesg oh idx = some oh') (hwf : H5O_wf oh) :
    H5O_wf oh' := by
  obtain ⟨hcons, hnos, hcrt⟩ := hwf
  rcases hg : oh.mesg.get? idx with _ | m
  · simp only [H5O_release_mesg, hg] at hop
    exact Option.noConfusion hop
  · simp only [H5O_release_mesg, hg] at hop
    by_cases hl : m.locked
    · rw [if_pos hl] at hop; exact Option.noConfusion hop
    · rw [if_neg hl] at hop
      obtain rfl := (Option.some.inj hop).symm
      refine ⟨?_, ?_, ?_⟩
      · intro i c hc
        show mesgListUsed (H5O_SIZEOF_MSGHDR_OH oh)
            (modifyAt oh.mesg idx (fun mm =>
              { mm with type_null := true, dirty := true })) i +
          c.gap = c.size
        rw [mesgListUsed_modifyAt_contr_eq (H5O_SIZEOF_MSGHDR_OH oh) oh.mesg idx
          (fun mm => { mm with type_null := true, dirty := true }) i (fun _ => rfl)]
        exact hcons i c hc
      · intro m' hm'
        rcases mem_modifyAt hm' with h | ⟨x, hx, hfx⟩
        · exact hnos m' h
        · rw [hfx]; exact hnos x hx
      · intro m' hm'
        rcases mem_modifyAt hm' with h | ⟨x, hx, hfx⟩
        · exact hcrt m' h
        · rw [hfx]; exact hcrt x hx

end HDF5

namespace HDF5

/-- Merging two null messages of the same chunk preserves
well-formedness: the absorbed slot's header and raw bytes become raw
bytes of the surviving null message. -/
lemma merge_null_wf (oh : H5O_t) (i j : Nat) (oh' : H5O_t)
    (hop : H5O_merge_null oh i j = some oh') (hwf : H5O_wf oh) :
    H5O_wf oh' := by
  obtain ⟨hcons, hnos, hcrt⟩ := hwf
  by_cases hij : i < j
  · rcases hgi : oh.mesg.get? i with _ | mi
    · simp only [H5O_merge_null, if_pos hij, hgi] at hop
      exact Option.noConfusion hop
    · rcases hgj : oh.mesg.get? j with _ | mj
      · simp only [H5O_merge_null, if_pos hij, hgi, hgj] at hop
        exact Option.noConfusion hop
      · simp only [H5O_merge_null, if_pos hij, hgi, hgj] at hop
        by_cases hcnd : mi.type_null = true ∧ mj.type_null = true ∧
            mi.chunkno = mj.chunkno
        · rw [if_pos hcnd] at hop
          obtain ⟨hn1, hn2, hc3⟩ := hcnd
          obtain rfl := (Option.some.inj hop).symm
          refine ⟨?_, ?_, ?_⟩
          · intro k c hc
            have hj' : (modifyAt oh.mesg i (fun mm =>
                { mm with raw_size :=
                    mm.raw_size + H5O_SIZEOF_MSGHDR_OH oh + mj.raw_size })).get? j =
                some mj := by
              rw [modifyAt_get?, if_neg (Nat.ne_of_gt hij)]
              exact hgj
            have h1 := mesgListUsed_eraseIdx (H5O_SIZEOF_MSGHDR_OH oh)
              (modifyAt oh.mesg i (fun mm =>
                { mm with raw_size :=
                    mm.raw_size + H5O_SIZEOF_MSGHDR_OH oh + mj.raw_size }))
              j mj hj' k
            have h2 := mesgListUsed_modifyAt (H5O_SIZEOF_MSGHDR_OH oh)
              oh.mesg i (fun mm =>
                { mm with raw_size :=
                    mm.raw_size + H5O_SIZEOF_MSGHDR_OH oh + mj.raw_size })
              mi hgi k
            have h := hcons k c hc
            show mesgListUsed (H5O_SIZEOF_MSGHDR_OH oh)
                ((modifyAt oh.mesg i (fun mm =>
                  { mm with raw_size :=
                      mm.raw_size + H5O_SIZEOF_MSGHDR_OH oh + mj.raw_size })).eraseIdx j)
                k + c.gap = c.size
            unfold chunkUsed at h
            simp only [mesgContr] at h1 h2
            by_cases hk : mj.chunkno = k
            · rw [if_pos hk] at h1
              rw [if_pos (hc3.trans hk)] at h2
              rw [if_pos (show (({ mi with raw_size :=
                  mi.raw_size + H5O_SIZEOF_MSGHDR_OH oh + mj.raw_size }) :
                    H5O_mesg_t).chunkno = k from hc3.trans hk)] at h2
              omega
            · rw [if_neg hk] at h1
              rw [if_neg (fun hcc => hk (hc3 ▸ hcc))] at h2
              rw [if_neg (show ¬ (({ mi with raw_size :=
                  mi.raw_size + H5O_SIZEOF_MSGHDR_OH oh + mj.raw_size }) :
                    H5O_mesg_t).chunkno = k from fun hcc => hk (hc3 ▸ hcc))] at h2
              omega
          · intro m' hm'
            have hm'' := List.eraseIdx_subset _ _ hm'
            rcases mem_modifyAt hm'' with h | ⟨x, hx, hfx⟩
            · exact hnos m' h
            · rw [hfx]; exact hnos x hx
          · intro m' hm'
            have hm'' := List.eraseIdx_subset _ _ hm'
            rcases mem_modifyAt hm'' with h | ⟨x, hx, hfx⟩
            · exact hcrt m' h
            · rw [hfx]; exact hcrt x hx
        · rw [if_neg hcnd] at hop
          exact Option.noConfusion hop
  · simp only [H5O_merge_null, if_neg hij] at hop
    exact Option.noConfusion hop

end HDF5

namespace HDF5

/-- Reusing or splitting a null message preserves well-formedness: an
exact fit reuses the slot in place, a split leaves the remainder as a
smaller null message of the same chunk. -/
lemma alloc_null_wf (oh : H5O_t) (idx new_size c : Nat) (oh' : H5O_t)
    (hop : H5O_alloc_null oh idx new_size c = some oh') (hwf : H5O_wf oh) :
    H5O_wf oh' := by
  obtain ⟨hcons, hnos, hcrt⟩ := hwf
  rcases hg : oh.mesg.get? idx with _ | m
  · simp only [H5O_alloc_null, hg] at hop
    exact Option.noConfusion hop
  · simp only [H5O_alloc_null, hg] at hop
    by_cases hnull : m.type_null = true
    case neg =>
      rw [if_pos (by simpa using hnull)] at hop
      exact Option.noConfusion hop
    rw [if_neg (by simpa using hnull)] at hop
    by_cases hcb : c ≤ H5O_MAX_CRT_ORDER_IDX
    case neg =>
      rw [if_pos (by simpa using hcb)] at hop
      exact Option.noConfusion hop
    rw [if_neg (by simpa using hcb)] at hop
    by_cases hexact : m.raw_size = new_size
    · rw [if_pos hexact] at hop
      obtain rfl := (Option.some.inj hop).symm
      refine ⟨?_, ?_, ?_⟩
      · intro k ch hc
        show mesgListUsed (H5O_SIZEOF_MSGHDR_OH oh)
            (modifyAt oh.mesg idx (fun mm =>
              { mm with type_null := false, dirty := true, crt_idx := c })) k +
          ch.gap = ch.size
        rw [mesgListUsed_modifyAt_contr_eq (H5O_SIZEOF_MSGHDR_OH oh) oh.mesg idx
          (fun mm => { mm with type_null := false, dirty := true, crt_idx := c })
          k (fun _ => rfl)]
        exact hcons k ch hc
      · intro m' hm'
        rcases mem_modifyAt hm' with h | ⟨x, hx, hfx⟩
        · exact hnos m' h
        · rw [hfx]; exact hnos x hx
      · intro m' hm'
        rcases mem_modifyAt hm' with h | ⟨x, hx, hfx⟩
        · exact hcrt m' h
        · rw [hfx]; exact hcb
    · rw [if_neg hexact] at hop
      by_cases hfit : new_size + H5O_SIZEOF_MSGHDR_OH oh ≤ m.raw_size
      case neg =>
        rw [if_neg hfit] at hop
        exact Option.noConfusion hop
      rw [if_pos hfit] at hop
      obtain rfl := (Option.some.inj hop).symm
      refine ⟨?_, ?_, ?_⟩
      · intro k ch hc
        have h2 := mesgListUsed_modifyAt (H5O_SIZEOF_MSGHDR_OH oh)
          oh.mesg idx (fun mm =>
            { mm with type_null := false, dirty := true, crt_idx := c,
                      raw_size := new_size })
          m hg k
        have h := hcons k ch hc
        show mesgListUsed (H5O_SIZEOF_MSGHDR_OH oh)
            ((modifyAt oh.mesg idx (fun mm =>
              { mm with type_null := false, dirty := true, crt_idx := c,
                        raw_size := new_size })) ++
             [{ type_null := true, dirty := true, locked := false, flags := 0,
                crt_idx := 0, chunkno := m.chunkno,
                raw_size := m.raw_size - new_size - H5O_SIZEOF_MSGHDR_OH oh }])
            k + ch.gap = ch.size
        rw [mesgListUsed_append]
        unfold chunkUsed at h
        simp only [mesgContr, mesgListUsed] at h2 ⊢
        by_cases hk : m.chunkno = k
        · simp only [hk, if_true, eq_self_iff_true] at h2 ⊢
          omega
        · simp only [hk, if_false, eq_self_iff_true] at h2 ⊢
          omega
      · intro m' hm'
        rcases List.mem_append.mp hm' with h | h
        · rcases mem_modifyAt h with h' | ⟨x, hx, hfx⟩
          · exact hnos m' h'
          · rw [hfx]; exact hnos x hx
        · have hm'eq : m' =
              { type_null := true, dirty := true, locked := false,
                flags := 0, crt_idx := 0, chunkno := m.chunkno,
                raw_size := m.raw_size - new_size - H5O_SIZEOF_MSGHDR_OH oh } := by
            simpa using h
          rw [hm'eq]
          exact hnos m (List.get?_mem hg)
      · intro m' hm'
        rcases List.mem_append.mp hm' with h | h
        · rcases mem_modifyAt h with h' | ⟨x, hx, hfx⟩
          · exact hcrt m' h'
          · rw [hfx]; exact hcb
        · have hm'eq : m' =
              { type_null := true, dirty := true, locked := false,
                flags := 0, crt_idx := 0, chunkno := m.chunkno,
                raw_size := m.raw_size - new_size - H5O_SIZEOF_MSGHDR_OH oh } := by
            simpa using h
          rw [hm'eq]
          exact Nat.zero_le _

end HDF5

namespace HDF5

/-- Extending a chunk in place to grow one of its messages preserves
well-formedness: chunk size and message raw size grow by the same
amount. -/
lemma chunk_extend_wf (oh : H5O_t) (idx delta : Nat) (oh' : H5O_t)
    (hop : H5O_chunk_extend oh idx delta = some oh') (hwf : H5O_wf oh) :
    H5O_wf oh' := by
  obtain ⟨hcons, hnos, hcrt⟩ := hwf
  rcases hg : oh.mesg.get? idx with _ | m
  · simp only [H5O_chunk_extend, hg] at hop
    exact Option.noConfusion hop
  · simp only [H5O_chunk_extend, hg] at hop
    obtain rfl := (Option.some.inj hop).symm
    refine ⟨?_, ?_, ?_⟩
    · intro k ch hc
      have h2 := mesgListUsed_modifyAt (H5O_SIZEOF_MSGHDR_OH oh)
        oh.mesg idx (fun mm =>
          { mm with raw_size := mm.raw_size + delta, dirty := true })
        m hg k
      have hck : (modifyAt oh.chunk m.chunkno (fun c =>
          { c with size := c.size + delta })).get? k =
          (if k = m.chunkno then (oh.chunk.get? m.chunkno).map (fun c =>
            { c with size := c.size + delta }) else oh.chunk.get? k) :=
        modifyAt_get? oh.chunk m.chunkno _ k
      show mesgListUsed (H5O_SIZEOF_MSGHDR_OH oh)
          (modifyAt oh.mesg idx (fun mm =>
            { mm with raw_size := mm.raw_size + delta, dirty := true })) k +
        ch.gap = ch.size
      simp only [mesgContr] at h2
      rw [hck] at hc
      by_cases hk : k = m.chunkno
      · rw [if_pos hk] at hc
        rcases hc0 : oh.chunk.get? m.chunkno with _ | c0
        · rw [hc0] at hc; exact Option.noConfusion hc
        · rw [hc0] at hc
          obtain rfl := (Option.some.inj hc).symm
          have h := hcons m.chunkno c0 hc0
          unfold chunkUsed at h
          rw [if_pos hk.symm] at h2
          rw [if_pos hk.symm] at h2
          subst hk
          simp only
          omega
      · rw [if_neg hk] at hc
        have h := hcons k ch hc
        unfold chunkUsed at h
        rw [if_neg (fun hcc => hk hcc.symm)] at h2
        rw [if_neg (fun hcc => hk hcc.symm)] at h2
        omega
    · intro m' hm'
      rcases mem_modifyAt hm' with h | ⟨x, hx, hfx⟩
      · show m'.chunkno < (modifyAt oh.chunk m.chunkno _).length
        rw [modifyAt_length]
        exact hnos m' h
      · show m'.chunkno < (modifyAt oh.chunk m.chunkno _).length
        rw [modifyAt_length, hfx]
        exact hnos x hx
    · intro m' hm'
      rcases mem_modifyAt hm' with h | ⟨x, hx, hfx⟩
      · exact hcrt m' h
      · rw [hfx]; exact hcrt x hx

/-- Adding a fresh continuation chunk holding one new message preserves
well-formedness: the new chunk's size equals the message-header overhead
plus the new raw size plus the (small) trailing gap. -/
lemma chunk_add_wf (oh : H5O_t) (chunk_addr new_size g c : Nat) (oh' : H5O_t)
    (hop : H5O_chunk_add oh chunk_addr new_size g c = some oh')
    (hwf : H5O_wf oh) : H5O_wf oh' := by
  obtain ⟨hcons, hnos, hcrt⟩ := hwf
  by_cases hguard : g < H5O_SIZEOF_MSGHDR_OH oh ∧ c ≤ H5O_MAX_CRT_ORDER_IDX
  case neg =>
    simp only [H5O_chunk_add, if_neg hguard] at hop
    exact Option.noConfusion hop
  simp only [H5O_chunk_add, if_pos hguard] at hop
  obtain rfl := (Option.some.inj hop).symm
  refine ⟨?_, ?_, ?_⟩
  · intro k ch hc
    show mesgListUsed (H5O_SIZEOF_MSGHDR_OH oh)
        (oh.mesg ++
          [{ type_null := false, dirty := true, locked := false, flags := 0,
             crt_idx := c, chunkno := oh.chunk.length,
             raw_size := new_size }]) k + ch.gap = ch.size
    rw [mesgListUsed_append]
    by_cases hk : k < oh.chunk.length
    · have hc' : oh.chunk.get? k = some ch := by
        rw [List.get?_append hk] at hc
        exact hc
      have h := hcons k ch hc'
      unfold chunkUsed at h
      have hcontr : mesgContr (H5O_SIZEOF_MSGHDR_OH oh)
          { type_null := false, dirty := true, locked := false, flags := 0,
            crt_idx := c, chunkno := oh.chunk.length,
            raw_size := new_size } k = 0 := by
        unfold mesgContr
        rw [if_neg]
        intro hcc
        simp only at hcc
        omega
      simp only [mesgListUsed]
      rw [hcontr]
      omega
    · have hge : oh.chunk.length ≤ k := Nat.le_of_not_lt hk
      rw [List.get?_append_right hge] at hc
      rcases hdk : k - oh.chunk.length with _ | n
      · rw [hdk] at hc
        obtain rfl := (Option.some.inj hc).symm
        have hkeq : k = oh.chunk.length := by omega
        have hzero : mesgListUsed (H5O_SIZEOF_MSGHDR_OH oh) oh.mesg k = 0 := by
          apply mesgListUsed_eq_zero
          intro m hm
          have := hnos m hm
          omega
        have hcontr : mesgContr (H5O_SIZEOF_MSGHDR_OH oh)
            { type_null := false, dirty := true, locked := false, flags := 0,
              crt_idx := c, chunkno := oh.chunk.length,
              raw_size := new_size } k =
            H5O_SIZEOF_MSGHDR_OH oh + new_size := by
          unfold mesgContr
          rw [if_pos]
          simp only [hkeq]
        show mesgListUsed (H5O_SIZEOF_MSGHDR_OH oh) oh.mesg k +
            mesgListUsed (H5O_SIZEOF_MSGHDR_OH oh)
              [{ type_null := false, dirty := true, locked := false, flags := 0,
                 crt_idx := c, chunkno := oh.chunk.length,
                 raw_size := new_size }] k + g =
          H5O_SIZEOF_MSGHDR_OH oh + new_size + g
        rw [hzero]
        simp only [mesgListUsed]
        rw [hcontr]
        omega
      · rw [hdk] at hc
        simp at hc
  · intro m' hm'
    rcases List.mem_append.mp hm' with h | h
    · show m'.chunkno < (oh.chunk ++ [_]).length
      rw [List.length_append]
      have := hnos m' h
      simp only [List.length_singleton]
      omega
    · have hm'eq : m' =
          { type_null := false, dirty := true, locked := false, flags := 0,
            crt_idx := c, chunkno := oh.chunk.length,
            raw_size := new_size } := by
        simpa using h
      rw [hm'eq]
      show oh.chunk.length < (oh.chunk ++ [_]).length
      rw [List.length_append]
      simp only [List.length_singleton]
      omega
  · intro m' hm'
    rcases List.mem_append.mp hm' with h | h
    · exact hcrt m' h
    · have hm'eq : m' =
          { type_null := false, dirty := true, locked := false, flags := 0,
            crt_idx := c, chunkno := oh.chunk.length,
            raw_size := new_size } := by
        simpa using h
      rw [hm'eq]
      exact hguard.2

end HDF5

namespace HDF5

lemma eraseIdx_get? (l : List α) (i k : Nat) :
    (l.eraseIdx i).get? k = if k < i then l.get? k else l.get? (k + 1) := by
  induction l generalizing i k with
  | nil => simp [List.eraseIdx]
  | cons x xs ih =>
    cases i with
    | zero =>
      simp only [List.eraseIdx]
      rw [if_neg (Nat.not_lt_zero k)]
      rfl
    | succ n =>
      cases k with
      | zero =>
        simp only [List.eraseIdx]
        rw [if_pos (Nat.succ_pos n)]
        rfl
      | succ kk =>
        simp only [List.eraseIdx, List.get?]
        rw [ih n kk]
        by_cases hk : kk < n
        · rw [if_pos hk, if_pos (Nat.succ_lt_succ hk)]
        · rw [if_neg hk, if_neg (fun hc => hk (Nat.lt_of_succ_lt_succ hc))]

lemma mesgListUsed_removeChunkMesgs (mh ci : Nat) (ms : List H5O_mesg_t)
    (k : Nat) :
    mesgListUsed mh (removeChunkMesgs ci ms) k =
      if k < ci then mesgListUsed mh ms k else mesgListUsed mh ms (k + 1) := by
  induction ms with
  | nil => simp [removeChunkMesgs, mesgListUsed]
  | cons m ms ih =>
    unfold removeChunkMesgs
    by_cases h1 : m.chunkno = ci
    · rw [if_pos h1, ih]
      simp only [mesgListUsed, mesgContr]
      split_ifs <;> omega
    · rw [if_neg h1]
      by_cases h2 : ci < m.chunkno
      · rw [if_pos h2]
        simp only [mesgListUsed, mesgContr, ih]
        split_ifs <;> omega
      · rw [if_neg h2]
        simp only [mesgListUsed, mesgContr, ih]
        split_ifs <;> omega

lemma mem_removeChunkMesgs {ci : Nat} {ms : List H5O_mesg_t}
    {m' : H5O_mesg_t} (h : m' ∈ removeChunkMesgs ci ms) :
    ∃ m ∈ ms, m'.crt_idx = m.crt_idx ∧
      ((m' = m ∧ m.chunkno < ci) ∨
       (m'.chunkno = m.chunkno - 1 ∧ ci < m.chunkno)) := by
  induction ms with
  | nil => simp [removeChunkMesgs] at h
  | cons m ms ih =>
    unfold removeChunkMesgs at h
    by_cases h1 : m.chunkno = ci
    · rw [if_pos h1] at h
      obtain ⟨x, hx, hp⟩ := ih h
      exact ⟨x, List.mem_cons_of_mem m hx, hp⟩
    · rw [if_neg h1] at h
      by_cases h2 : ci < m.chunkno
      · rw [if_pos h2] at h
        rcases List.mem_cons.mp h with heq | h
        · refine ⟨m, List.mem_cons_self m ms, ?_, Or.inr ⟨?_, h2⟩⟩
          · rw [heq]
          · rw [heq]
        · obtain ⟨x, hx, hp⟩ := ih h
          exact ⟨x, List.mem_cons_of_mem m hx, hp⟩
      · rw [if_neg h2] at h
        rcases List.mem_cons.mp h with heq | h
        · refine ⟨m, List.mem_cons_self m ms, ?_, Or.inl ⟨heq, ?_⟩⟩
          · rw [heq]
          · exact Nat.lt_of_le_of_ne (Nat.le_of_not_lt h2) h1
        · obtain ⟨x, hx, hp⟩ := ih h
          exact ⟨x, List.mem_cons_of_mem m hx, hp⟩

/-- Removing a null message while shrinking its chunk preserves
well-formedness: the freed header overhead and raw span leave both sides
of the accounting equation. -/
lemma condense_null_wf (oh : H5O_t) (idx : Nat) (oh' : H5O_t)
    (hop : H5O_condense_null oh idx = some oh') (hwf : H5O_wf oh) :
    H5O_wf oh' := by
  obtain ⟨hcons, hnos, hcrt⟩ := hwf
  rcases hg : oh.mesg.get? idx with _ | m
  · simp only [H5O_condense_null, hg] at hop
    exact Option.noConfusion hop
  · simp only [H5O_condense_null, hg] at hop
    by_cases hguard : m.type_null = true ∧ m.locked = false
    case neg =>
      rw [if_neg hguard] at hop
      exact Option.noConfusion hop
    rw [if_pos hguard] at hop
    obtain rfl := (Option.some.inj hop).symm
    refine ⟨?_, ?_, ?_⟩
    · intro k c hc
      have h1 := mesgListUsed_eraseIdx (H5O_SIZEOF_MSGHDR_OH oh)
        oh.mesg idx m hg k
      have hck : (modifyAt oh.chunk m.chunkno (fun ch =>
          { ch with size :=
              ch.size - (H5O_SIZEOF_MSGHDR_OH oh + m.raw_size) })).get? k =
          (if k = m.chunkno then (oh.chunk.get? m.chunkno).map (fun ch =>
            { ch with size :=
              ch.size - (H5O_SIZEOF_MSGHDR_OH oh + m.raw_size) })
          else oh.chunk.get? k) :=
        modifyAt_get? oh.chunk m.chunkno _ k
      show mesgListUsed (H5O_SIZEOF_MSGHDR_OH oh) (oh.mesg.eraseIdx idx) k +
        c.gap = c.size
      simp only [mesgContr] at h1
      rw [hck] at hc
      by_cases hk : k = m.chunkno
      · rw [if_pos hk] at hc
        rcases hc0 : oh.chunk.get? m.chunkno with _ | c0
        · rw [hc0] at hc; exact Option.noConfusion hc
        · rw [hc0] at hc
          obtain rfl := (Option.some.inj hc).symm
          have h := hcons m.chunkno c0 hc0
          unfold chunkUsed at h
          rw [if_pos hk.symm] at h1
          subst hk
          simp only
          omega
      · rw [if_neg hk] at hc
        have h := hcons k c hc
        unfold chunkUsed at h
        rw [if_neg (fun hcc => hk hcc.symm)] at h1
        omega
    · intro m' hm'
      have hm'' := List.eraseIdx_subset _ _ hm'
      show m'.chunkno < (modifyAt oh.chunk m.chunkno _).length
      rw [modifyAt_length]
      exact hnos m' hm''
    · intro m' hm'
      exact hcrt m' (List.eraseIdx_subset _ _ hm')

/-- Removing an all-null non-chunk-0 chunk preserves well-formedness:
its slots leave the table and later chunks (with the messages that name
them) are renumbered down by one. -/
lemma chunk_remove_wf (oh : H5O_t) (ci : Nat) (oh' : H5O_t)
    (hop : H5O_chunk_remove oh ci = some oh') (hwf : H5O_wf oh) :
    H5O_wf oh' := by
  obtain ⟨hcons, hnos, hcrt⟩ := hwf
  by_cases hguard : ci ≠ 0 ∧ ci < oh.chunk.length ∧
      (∀ m ∈ oh.mesg, m.chunkno = ci → m.type_null = true)
  case neg =>
    simp only [H5O_chunk_remove, if_neg hguard] at hop
    exact Option.noConfusion hop
  simp only [H5O_chunk_remove, if_pos hguard] at hop
  obtain rfl := (Option.some.inj hop).symm
  refine ⟨?_, ?_, ?_⟩
  · intro k c hc
    show mesgListUsed (H5O_SIZEOF_MSGHDR_OH oh) (removeChunkMesgs ci oh.mesg) k +
      c.gap = c.size
    rw [mesgListUsed_removeChunkMesgs]
    have hc' : (oh.chunk.eraseIdx ci).get? k =
        if k < ci then oh.chunk.get? k else oh.chunk.get? (k + 1) :=
      eraseIdx_get? oh.chunk ci k
    rw [hc'] at hc
    by_cases hk : k < ci
    · rw [if_pos hk] at hc ⊢
      exact hcons k c hc
    · rw [if_neg hk] at hc ⊢
      exact hcons (k + 1) c hc
  · intro m' hm'
    obtain ⟨m, hm, hcrteq, hcase⟩ := mem_removeChunkMesgs hm'
    have hlen : (oh.chunk.eraseIdx ci).length = oh.chunk.length - 1 :=
      List.length_eraseIdx_of_lt hguard.2.1
    show m'.chunkno < (oh.chunk.eraseIdx ci).length
    rw [hlen]
    have hmlt := hnos m hm
    have hcilt := hguard.2.1
    rcases hcase with ⟨heq, hlt⟩ | ⟨heq, hlt⟩
    · rw [heq]; omega
    · rw [heq]; omega
  · intro m' hm'
    obtain ⟨m, hm, hcrteq, _⟩ := mem_removeChunkMesgs hm'
    rw [hcrteq]
    exact hcrt m hm

/-- Every modelled message/chunk operation preserves well-formedness. -/
lemma H5O_step_wf (oh oh' : H5O_t) (h : H5O_step oh oh') (hwf : H5O_wf oh) :
    H5O_wf oh' := by
  cases h with
  | release idx b hop => exact release_mesg_wf _ _ _ hop hwf
  | merge i j b hop => exact merge_null_wf _ _ _ _ hop hwf
  | alloc idx new_size c b hop => exact alloc_null_wf _ _ _ _ _ hop hwf
  | extend idx delta b hop => exact chunk_extend_wf _ _ _ _ hop hwf
  | chunk_add ca n g c b hop => exact chunk_add_wf _ _ _ _ _ _ hop hwf
  | condense idx b hop => exact condense_null_wf _ _ _ hop hwf
  | chunk_remove ci b hop => exact chunk_remove_wf _ _ _ hop hwf

/-- A successful null-reuse allocation only ever assigns a creation index
within the documented bound. -/
lemma alloc_null_crt_guard (oh : H5O_t) (idx new_size c : Nat) (oh' : H5O_t)
    (hop : H5O_alloc_null oh idx new_size c = some oh') :
    c ≤ H5O_MAX_CRT_ORDER_IDX := by
  by_contra hc
  rcases hg : oh.mesg.get? idx with _ | m
  · simp only [H5O_alloc_null, hg] at hop
    exact Option.noConfusion hop
  · simp only [H5O_alloc_null, hg] at hop
    by_cases hnull : m.type_null = true
    · rw [if_neg (by simpa using hnull)] at hop
      rw [if_pos (by simpa using hc)] at hop
      exact Option.noConfusion hop
    · rw [if_pos (by simpa using hnull)] at hop
      exact Option.noConfusion hop

/-- A successful chunk allocation only ever assigns a creation index
within the documented bound. -/
lemma chunk_add_crt_guard (oh : H5O_t) (chunk_addr new_size g c : Nat)
    (oh' : H5O_t) (hop : H5O_chunk_add oh chunk_addr new_size g c = some oh') :
    c ≤ H5O_MAX_CRT_ORDER_IDX := by
  by_contra hc
  have hng : ¬(g < H5O_SIZEOF_MSGHDR_OH oh ∧ c ≤ H5O_MAX_CRT_ORDER_IDX) :=
    fun h => hc h.2
  simp only [H5O_chunk_add, if_neg hng] at hop
  exact Option.noConfusion hop

/-- Claim C1: for every chunk of a well-formed live object header, the
sum of the raw sizes of the messages residing in that chunk plus the
per-message header overhead of those messages plus the chunk's gap equals
the chunk's size, and this equation (with the structural well-formedness
it relies on) is preserved by every modelled message and chunk
operation. -/
theorem C1_chunk_accounting (oh oh' : H5O_t) (hstep : H5O_step oh oh')
    (hwf : H5O_wf oh) : chunksConsistent oh' ∧ H5O_wf oh' :=
  ⟨(H5O_step_wf oh oh' hstep hwf).1, H5O_step_wf oh oh' hstep hwf⟩

/-- Claim C6: every message of a well-formed live object header has a
creation index in the range 0..65535, every modelled operation preserves
this bound, and the operations that assign a creation index at append
time only accept indices within the bound. -/
theorem C6_crt_idx_bound :
    (∀ oh oh' : H5O_t, H5O_step oh oh' → H5O_wf oh →
      ∀ m ∈ oh'.mesg, m.crt_idx ≤ H5O_MAX_CRT_ORDER_IDX ∧ m.crt_idx ≤ 65535) ∧
    (∀ (oh : H5O_t) (idx new_size c : Nat) (oh' : H5O_t),
      H5O_alloc_null oh idx new_size c = some oh' →
      c ≤ H5O_MAX_CRT_ORDER_IDX) ∧
    (∀ (oh : H5O_t) (chunk_addr new_size g c : Nat) (oh' : H5O_t),
      H5O_chunk_add oh chunk_addr new_size g c = some oh' →
      c ≤ H5O_MAX_CRT_ORDER_IDX) := by
  refine ⟨?_, ?_, ?_⟩
  · intro oh oh' hstep hwf m hm
    have h := (H5O_step_wf oh oh' hstep hwf).2.2 m hm
    exact ⟨h, by simpa [H5O_MAX_CRT_ORDER_IDX] using h⟩
  · exact alloc_null_crt_guard
  · exact chunk_add_crt_guard

/-- A concrete well-formed version-2 header with one 10-byte message in
one chunk of size 14 (4-byte message header + 10-byte raw span, no
gap). -/
def ohWit : H5O_t :=
  { version := 2, flags := 0,
    mesg := [{ type_null := false, dirty := false, locked := false,
               flags := 0, crt_idx := 3, chunkno := 0, raw_size := 10 }],
    chunk := [{ addr := 100, size := 14, gap := 0 }] }

/-- The header `ohWit` after releasing its message (slot turned null). -/
def ohWitRel : H5O_t :=
  { version := 2, flags := 0,
    mesg := [{ type_null := true, dirty := true, locked := false,
               flags := 0, crt_idx := 3, chunkno := 0, raw_size := 10 }],
    chunk := [{ addr := 100, size := 14, gap := 0 }] }

/-- The header `ohWitRel` after an exact-fit reallocation of its null
message with creation index 5. -/
def ohWitAlloc : H5O_t :=
  { version := 2, flags := 0,
    mesg := [{ type_null := false, dirty := true, locked := false,
               flags := 0, crt_idx := 5, chunkno := 0, raw_size := 10 }],
    chunk := [{ addr := 100, size := 14, gap := 0 }] }

lemma ohWit_wf : H5O_wf ohWit := by
  refine ⟨?_, ?_, ?_⟩
  · intro i c h
    cases i with
    | zero =>
      obtain rfl := (Option.some.inj h).symm
      decide
    | succ n => exact Option.noConfusion h
  · unfold chunknosValid
    decide
  · unfold crtIdxBounded
    decide

lemma ohWit_step : H5O_step ohWit ohWitRel :=
  H5O_step.release ohWit 0 ohWitRel (by decide)

/-- Witness for C1: the release of the sole message of `ohWit` yields a
header still satisfying the accounting equation. -/
theorem C1_chunk_accounting_witness :
    chunksConsistent ohWitRel ∧ H5O_wf ohWitRel :=
  C1_chunk_accounting ohWit ohWitRel ohWit_step ohWit_wf

/-- Witness for C6: after the release step every creation index of the
result is within bound, and a concrete exact-fit allocation with creation
index 5 is accepted, 5 being within bound. -/
theorem C6_crt_idx_bound_witness :
    (∀ m ∈ ohWitRel.mesg,
      m.crt_idx ≤ H5O_MAX_CRT_ORDER_IDX ∧ m.crt_idx ≤ 65535) ∧
    5 ≤ H5O_MAX_CRT_ORDER_IDX := by
  refine ⟨C6_crt_idx_bound.1 ohWit ohWitRel ohWit_step ohWit_wf, ?_⟩
  exact C6_crt_idx_bound.2.1 ohWitRel 0 10 5 ohWitAlloc (by decide)

end HDF5
